import Mathlib

/-!
Verification of the Network-Topology-Study repository.

This file embeds, as Lean definitions, the algorithms of
`large_network_analysis.py` and `simple_large_network_test.py`:

* the wavefront propagation simulators
  (`MessagePropagationSimulator.simulate_propagation`,
  `SimpleNetworkAnalyzer.simulate_propagation`),
* the geographical network builders
  (`OptimizedNetworkGenerator.create_geographical_network_optimized`,
  `SimpleNetworkAnalyzer.create_network`) together with the shared
  distance / connection-probability computation, and
* the metric-reporting wrapper of `NetworkAnalyzer.analyze_network_properties`.

Theorems about these definitions settle the testable properties stated in the
repository's specification.
-/

namespace NetworkStudy

/-- One record of the propagation trace: the Python dict built at
`large_network_analysis.py:177-184` / `simple_large_network_test.py:128-135`.
The two wall-clock timing fields (`step_time`, `total_time`) are
instrumentation only and are not modelled.  `pending_count` is computed in
Python by integer subtraction `total_nodes - len(received)`, so it is an `Int`
here. -/
structure StepRec where
  step : Nat
  received_count : Nat
  propagating_count : Nat
  pending_count : Int
  deriving DecidableEq, Repr, Inhabited

/-- The set of all neighbors of nodes in `s`: the union scanned by the inner
`for node in propagating: for neighbor in neighbors(node)` loops.  Adjacency
is a function from node id to its neighbor set. -/
def nbrs (adj : Nat → Finset Nat) (s : Finset Nat) : Finset Nat :=
  s.biUnion adj

/-- The round loop shared verbatim by the two simulators
(`large_network_analysis.py:164-196`, `simple_large_network_test.py:116-148`).
The single textual difference between the two Python loops is the loop guard:
the optimized simulator runs `while propagating`, the simple one runs
`while propagating and len(received) < self.total_nodes`; the flag `covStop`
selects between them.  Each iteration: every propagating node informs its
not-yet-received neighbors (the mutation order inside the Python `for` loops
does not affect the final sets, which are `received ∪ nbrs propagating` and
`nbrs propagating \ received`), one record is appended, and the loop then
breaks if `step > total_nodes` (the defensive safety check).  `fuel` is only a
structural-recursion bound; the safety break makes `n + 1` units sufficient. -/
def simulate_loop (covStop : Bool) (n : Nat) (adj : Nat → Finset Nat)
    (received propagating : Finset Nat) (step fuel : Nat) : List StepRec :=
  match fuel with
  | 0 => []
  | fuel + 1 =>
    if propagating = ∅ ∨ (covStop ∧ n ≤ received.card) then []
    else
      let received2 := received ∪ nbrs adj propagating
      let newProp := nbrs adj propagating \ received
      let r : StepRec := ⟨step, received2.card, propagating.card, (n : Int) - received2.card⟩
      if n < step + 1 then [r]
      else r :: simulate_loop covStop n adj received2 newProp (step + 1) fuel

/-- `MessagePropagationSimulator.simulate_propagation`
(`large_network_analysis.py:152-201`): both `received` and `propagating`
start as `{origin}` and the loop runs until the propagating set is empty
(or the safety break fires). -/
def simulate_propagation (n : Nat) (adj : Nat → Finset Nat) (origin : Nat) : List StepRec :=
  simulate_loop false n adj {origin} {origin} 0 (n + 1)

/-- `SimpleNetworkAnalyzer.simulate_propagation`
(`simple_large_network_test.py:105-153`): identical to the optimized
simulator except that the loop also stops as soon as
`len(received) = total_nodes`. -/
def simulate_propagation_simple (n : Nat) (adj : Nat → Finset Nat) (origin : Nat) : List StepRec :=
  simulate_loop true n adj {origin} {origin} 0 (n + 1)

/-- Adjacency of the 6-node cycle 0-1-2-3-4-5-0 used by the specification's
concrete scenario. -/
def cycleAdj : Nat → Finset Nat := fun i =>
  match i with
  | 0 => {1, 5}
  | 1 => {0, 2}
  | 2 => {1, 3}
  | 3 => {2, 4}
  | 4 => {3, 5}
  | 5 => {4, 0}
  | _ => ∅

/-- Reachability along the adjacency structure. -/
abbrev Reach (adj : Nat → Finset Nat) (a b : Nat) : Prop :=
  Relation.ReflTransGen (fun x y => y ∈ adj x) a b

/-- Euclidean distance between two node positions
(`SimpleNetworkAnalyzer.calculate_distance`, `simple_large_network_test.py:52-56`;
the optimized generator computes the same quantity vectorized at
`large_network_analysis.py:109`). -/
noncomputable def calculate_distance (p q : ℝ × ℝ) : ℝ :=
  Real.sqrt ((p.1 - q.1) * (p.1 - q.1) + (p.2 - q.2) * (p.2 - q.2))

/-- Connection probability `(1 - d/max_distance) ** distance_weight`
(`large_network_analysis.py:119`, `simple_large_network_test.py:68-69`).
Real exponentiation models Python's `pow` on these arguments, including
`pow(0.0, 0.0) = 1.0`. -/
noncomputable def connection_probability (max_distance distance_weight d : ℝ) : ℝ :=
  (1 - d / max_distance) ^ distance_weight

/-- One candidate test of the neighbor scan: skip self, test the distance
radius, and on a surviving candidate consume one pseudo-random draw (the
candidate joins if its draw is below its connection probability).  Both
scripts consume exactly one draw per in-radius non-self candidate, in
ascending node order (`simple_large_network_test.py:63-72`;
`large_network_analysis.py:110-123` draws `np.random.random(len(nearby))`
over the ascending in-radius candidates).  The state is the candidate list
so far and the number of draws consumed so far. -/
noncomputable def scan_step (max_distance distance_weight : ℝ)
    (positions : List (ℝ × ℝ)) (u : Nat → ℝ) (i : Nat)
    (st : List Nat × Nat) (j : Nat) : List Nat × Nat :=
  if j = i then st
  else
    if calculate_distance (positions.getD i (0, 0)) (positions.getD j (0, 0))
        ≤ max_distance then
      (if u st.2 < connection_probability max_distance distance_weight
            (calculate_distance (positions.getD i (0, 0)) (positions.getD j (0, 0)))
        then st.1 ++ [j] else st.1,
       st.2 + 1)
    else st

/-- Neighbor search for node `i`
(`OptimizedNetworkGenerator._find_geographical_neighbors`,
`large_network_analysis.py:103-129`, and
`SimpleNetworkAnalyzer.find_geographical_neighbors`,
`simple_large_network_test.py:58-78`): scan all nodes, then subsample with
`random.sample` when more than `connections_per_node` candidates survive.
`u` is the pseudo-random stream with `c` the number of draws consumed so far;
`sample` abstracts `random.sample` (a PRNG-driven selection of
`connections_per_node` elements).  Returns the candidate list and the
updated draw counter. -/
noncomputable def find_geographical_neighbors (max_distance distance_weight : ℝ)
    (connections_per_node : Nat) (sample : List Nat → Nat → List Nat)
    (positions : List (ℝ × ℝ)) (u : Nat → ℝ) (i : Nat) (c : Nat) : List Nat × Nat :=
  let scanned := (List.range positions.length).foldl
    (scan_step max_distance distance_weight positions u i) ([], c)
  (if connections_per_node < scanned.1.length then sample scanned.1 connections_per_node
   else scanned.1, scanned.2)

/-- Append `b` to the adjacency list of `a` (`network[a].append(b)`). -/
def listInsert (net : Nat → List Nat) (a b : Nat) : Nat → List Nat :=
  fun x => if x = a then net a ++ [b] else net x

/-- Guarded symmetric insertion of `simple_large_network_test.py:96-100`:
`if neighbor not in network[i]: network[i].append(neighbor);
network[neighbor].append(i)` (two sequential appends, so a hypothetical
self-edge would be appended twice). -/
def add_edge_simple (net : Nat → List Nat) (i j : Nat) : Nat → List Nat :=
  if j ∈ net i then net else listInsert (listInsert net i j) j i

/-- The per-node edge-insertion loop of `SimpleNetworkAnalyzer.create_network`. -/
def add_neighbors_simple (net : Nat → List Nat) (i : Nat) (ns : List Nat) : Nat → List Nat :=
  ns.foldl (fun m j => add_edge_simple m i j) net

/-- `networkx.Graph.add_edge`: records `j` as a neighbor of `i` and `i` as a
neighbor of `j`; the adjacency sets make re-insertion a no-op. -/
def nx_add_edge (g : Nat → Finset Nat) (i j : Nat) : Nat → Finset Nat :=
  fun a => if a = i then insert j (g i) else if a = j then insert i (g j) else g a

/-- `OptimizedNetworkGenerator._add_connections`
(`large_network_analysis.py:131-138`): add each candidate edge unless it is
already present (the `has_edge` guard only affects the returned count, which
is print-only and not modelled). -/
def add_connections (g : Nat → Finset Nat) (i : Nat) (ns : List Nat) : Nat → Finset Nat :=
  ns.foldl (fun m j => if j ∈ m i then m else nx_add_edge m i j) g

/-- Node processing order induced by the batch loops
(`large_network_analysis.py:92-96`, `simple_large_network_test.py:90-94`):
`for batch_start in range(0, n, b): for i in range(batch_start,
min(batch_start + b, n))`. -/
def batch_order (n b : Nat) : List Nat :=
  ((List.range ((n + b - 1) / b)).map fun t => List.range' (t * b) (min b (n - t * b))).flatten

/-- Process one node of the optimized generator: find its geographical
neighbors (threading the draw counter) and insert the edges. -/
noncomputable def node_pass_optimized (max_distance distance_weight : ℝ)
    (connections_per_node : Nat) (sample : List Nat → Nat → List Nat)
    (positions : List (ℝ × ℝ)) (u : Nat → ℝ)
    (st : (Nat → Finset Nat) × Nat) (i : Nat) : (Nat → Finset Nat) × Nat :=
  let r := find_geographical_neighbors max_distance distance_weight connections_per_node
    sample positions u i st.2
  (add_connections st.1 i r.1, r.2)

/-- The optimized generator's node loop with an explicit node-processing
order (the script itself always processes `batch_order`). -/
noncomputable def create_network_order (max_distance distance_weight : ℝ)
    (connections_per_node : Nat) (sample : List Nat → Nat → List Nat)
    (positions : List (ℝ × ℝ)) (u : Nat → ℝ) (order : List Nat) :
    (Nat → Finset Nat) × Nat :=
  order.foldl (node_pass_optimized max_distance distance_weight connections_per_node
    sample positions u) (fun _ => (∅ : Finset Nat), 0)

/-- `OptimizedNetworkGenerator.create_geographical_network_optimized`
(`large_network_analysis.py:78-101`) with the batch size `b` as a parameter
(the script fixes `BATCH_SIZE = 1000`). -/
noncomputable def create_geographical_network_optimized (max_distance distance_weight : ℝ)
    (connections_per_node : Nat) (sample : List Nat → Nat → List Nat)
    (positions : List (ℝ × ℝ)) (u : Nat → ℝ) (b : Nat) : Nat → Finset Nat :=
  (create_network_order max_distance distance_weight connections_per_node sample positions u
    (batch_order positions.length b)).1

/-- Process one node of the simple generator. -/
noncomputable def node_pass_simple (max_distance distance_weight : ℝ)
    (connections_per_node : Nat) (sample : List Nat → Nat → List Nat)
    (positions : List (ℝ × ℝ)) (u : Nat → ℝ)
    (st : (Nat → List Nat) × Nat) (i : Nat) : (Nat → List Nat) × Nat :=
  let r := find_geographical_neighbors max_distance distance_weight connections_per_node
    sample positions u i st.2
  (add_neighbors_simple st.1 i r.1, r.2)

/-- `SimpleNetworkAnalyzer.create_network` (`simple_large_network_test.py:80-103`):
list-valued adjacency built in batches of size `min 1000 n`. -/
noncomputable def create_network (max_distance distance_weight : ℝ)
    (connections_per_node : Nat) (sample : List Nat → Nat → List Nat)
    (positions : List (ℝ × ℝ)) (u : Nat → ℝ) : Nat → List Nat :=
  ((batch_order positions.length (min 1000 positions.length)).foldl
    (node_pass_simple max_distance distance_weight connections_per_node sample positions u)
    (fun _ => ([] : List Nat), 0)).1

/-- Three-node layout used to exhibit processing-order dependence: node 0 at
the origin, nodes 1 and 2 coincident at distance 1/2 from it. -/
noncomputable def cexPositions : List (ℝ × ℝ) :=
  [(0, 0), (1/2, 0), (1/2, 0)]

/-- A fixed pseudo-random stream: every draw is 9/10 except the fourth,
which is 0. -/
noncomputable def cexU : Nat → ℝ :=
  fun m => if m = 3 then 0 else 9/10

/-- Metric report entry for `average_clustering` / `average_path_length`:
either absent from the properties dict, a number, or the float `inf`. -/
inductive MetricEntry where
  | absent
  | num (x : ℝ)
  | infinity

/-- The conditional metric block of `NetworkAnalyzer.analyze_network_properties`
(`large_network_analysis.py:228-236`): the two keys are written only when the
graph is connected; `exact_ok` abstracts whether the `try` block succeeds, and
the metric values computed by the `networkx` library are abstracted as
parameters.  On exception the code writes `average_clustering = 0` and
`average_path_length = float(inf)`. -/
def clustering_path_report (connected exact_ok : Bool) (clustering path_len : ℝ) :
    MetricEntry × MetricEntry :=
  if connected then
    (if exact_ok then (MetricEntry.num clustering, MetricEntry.num path_len)
     else (MetricEntry.num 0, MetricEntry.infinity))
  else (MetricEntry.absent, MetricEntry.absent)

/-- Unfolding equation: the loop exits when the guard fails. -/
theorem simulate_loop_succ_stop (covStop : Bool) (n : Nat) (adj : Nat → Finset Nat)
    (r p : Finset Nat) (s f : Nat) (hg : p = ∅ ∨ (covStop = true ∧ n ≤ r.card)) :
    simulate_loop covStop n adj r p s (f + 1) = [] := by
  simp only [simulate_loop, if_pos hg]

/-- Unfolding equation: the safety break records once and stops. -/
theorem simulate_loop_succ_break (covStop : Bool) (n : Nat) (adj : Nat → Finset Nat)
    (r p : Finset Nat) (s f : Nat) (hg : ¬ (p = ∅ ∨ (covStop = true ∧ n ≤ r.card)))
    (hbr : n < s + 1) :
    simulate_loop covStop n adj r p s (f + 1)
      = [⟨s, (r ∪ nbrs adj p).card, p.card, (n : Int) - (r ∪ nbrs adj p).card⟩] := by
  simp only [simulate_loop, if_neg hg, if_pos hbr]

/-- Unfolding equation: a regular iteration records once and recurses on the
updated state. -/
theorem simulate_loop_succ_continue (covStop : Bool) (n : Nat) (adj : Nat → Finset Nat)
    (r p : Finset Nat) (s f : Nat) (hg : ¬ (p = ∅ ∨ (covStop = true ∧ n ≤ r.card)))
    (hbr : ¬ n < s + 1) :
    simulate_loop covStop n adj r p s (f + 1)
      = ⟨s, (r ∪ nbrs adj p).card, p.card, (n : Int) - (r ∪ nbrs adj p).card⟩
          :: simulate_loop covStop n adj (r ∪ nbrs adj p) (nbrs adj p \ r) (s + 1) f := by
  simp only [simulate_loop, if_neg hg, if_neg hbr]

/-- The safety break bounds the number of loop iterations: starting at round
`step ≤ n`, at most `n + 1 - step` records are produced, whatever the fuel. -/
theorem simulate_loop_length_le (covStop : Bool) (n : Nat) (adj : Nat → Finset Nat) :
    ∀ (fuel : Nat) (received propagating : Finset Nat) (step : Nat), step ≤ n →
      (simulate_loop covStop n adj received propagating step fuel).length ≤ n + 1 - step := by
  intro fuel
  induction fuel with
  | zero => intro r p s hs; simp [simulate_loop]
  | succ f ih =>
    intro r p s hs
    simp only [simulate_loop]
    split
    · simp
    · split
      · rename_i hbr
        simp only [List.length_singleton]
        omega
      · rename_i hbr
        simp only [List.length_cons]
        have h2 := ih (r ∪ nbrs adj p) (nbrs adj p \ r) (s + 1) (by omega)
        omega

/-- Every record carries `pending_count = n - received_count` (it is computed
that way in the loop body). -/
theorem simulate_loop_pending (covStop : Bool) (n : Nat) (adj : Nat → Finset Nat) :
    ∀ (fuel : Nat) (received propagating : Finset Nat) (step : Nat),
      ∀ rec ∈ simulate_loop covStop n adj received propagating step fuel,
        rec.pending_count = (n : Int) - rec.received_count := by
  intro fuel
  induction fuel with
  | zero => intro r p s rec h; simp [simulate_loop] at h
  | succ f ih =>
    intro r p s rec h
    simp only [simulate_loop] at h
    split at h
    · simp at h
    · split at h
      · simp only [List.mem_singleton] at h
        subst h; rfl
      · simp only [List.mem_cons] at h
        rcases h with h | h
        · subst h; rfl
        · exact ih _ _ _ rec h

/-- Every record of the trace reports a received count at least as large as
the received set at loop entry. -/
theorem simulate_loop_received_le (covStop : Bool) (n : Nat) (adj : Nat → Finset Nat) :
    ∀ (fuel : Nat) (received propagating : Finset Nat) (step : Nat),
      ∀ rec ∈ simulate_loop covStop n adj received propagating step fuel,
        received.card ≤ rec.received_count := by
  intro fuel
  induction fuel with
  | zero => intro r p s rec h; simp [simulate_loop] at h
  | succ f ih =>
    intro r p s rec h
    simp only [simulate_loop] at h
    split at h
    · simp at h
    · have hsub : r ⊆ r ∪ nbrs adj p := Finset.subset_union_left
      have hcard : r.card ≤ (r ∪ nbrs adj p).card := Finset.card_le_card hsub
      split at h
      · simp only [List.mem_singleton] at h
        subst h; exact hcard
      · simp only [List.mem_cons] at h
        rcases h with h | h
        · subst h; exact hcard
        · exact le_trans hcard (ih _ _ _ rec h)

/-- The head of the trace, when it exists, records the state after the first
round: senders are the entry propagating set, received is its closure. -/
theorem simulate_loop_head (covStop : Bool) (n : Nat) (adj : Nat → Finset Nat)
    (fuel : Nat) (received propagating : Finset Nat) (step : Nat) (rec : StepRec)
    (h : (simulate_loop covStop n adj received propagating step fuel).head? = some rec) :
    rec = ⟨step, (received ∪ nbrs adj propagating).card, propagating.card,
      (n : Int) - (received ∪ nbrs adj propagating).card⟩ := by
  cases fuel with
  | zero => simp [simulate_loop] at h
  | succ f =>
    simp only [simulate_loop] at h
    split at h
    · simp at h
    · split at h
      · simp only [List.head?_cons, Option.some.injEq] at h
        exact h.symm
      · simp only [List.head?_cons, Option.some.injEq] at h
        exact h.symm

/-- Received counts are non-decreasing from each record to the next. -/
theorem simulate_loop_chain (covStop : Bool) (n : Nat) (adj : Nat → Finset Nat) :
    ∀ (fuel : Nat) (received propagating : Finset Nat) (step : Nat),
      List.Chain' (fun a b : StepRec => a.received_count ≤ b.received_count)
        (simulate_loop covStop n adj received propagating step fuel) := by
  intro fuel
  induction fuel with
  | zero => intro r p s; simp [simulate_loop]
  | succ f ih =>
    intro r p s
    simp only [simulate_loop]
    split
    · simp
    · split
      · simp
      · rw [List.chain'_cons']
        refine ⟨?_, ih _ _ _⟩
        intro b hb
        have hb' := simulate_loop_received_le covStop n adj f _ _ (s + 1) b
          (List.mem_of_mem_head? hb)
        exact hb'

/-- The newly informed set of a round has as many elements as the round added
to the received set. -/
theorem newProp_card (adj : Nat → Finset Nat) (r p : Finset Nat) :
    (nbrs adj p \ r).card = (r ∪ nbrs adj p).card - r.card := by
  have hset : nbrs adj p \ r = (r ∪ nbrs adj p) \ r := by
    ext x
    simp only [Finset.mem_sdiff, Finset.mem_union]
    tauto
  rw [hset, Finset.card_sdiff Finset.subset_union_left]

/-- Consecutive records: the recorded `propagating_count` of a round is the
number of nodes newly informed in the PREVIOUS round, because the loop
records `len(propagating)` (the senders) before replacing `propagating` by
the newly informed set. -/
theorem simulate_loop_consecutive (covStop : Bool) (n : Nat) (adj : Nat → Finset Nat) :
    ∀ (fuel : Nat) (received propagating : Finset Nat) (step k : Nat),
      k + 1 < (simulate_loop covStop n adj received propagating step fuel).length →
      ((simulate_loop covStop n adj received propagating step fuel).getD (k + 1)
          default).propagating_count
        = ((simulate_loop covStop n adj received propagating step fuel).getD k
            default).received_count
          - (if k = 0 then received.card
             else ((simulate_loop covStop n adj received propagating step fuel).getD (k - 1)
                default).received_count) := by
  intro fuel
  induction fuel with
  | zero => intro r p s k h; simp [simulate_loop] at h
  | succ f ih =>
    intro r p s k h
    by_cases hg : p = ∅ ∨ (covStop ∧ n ≤ r.card)
    · simp [simulate_loop, hg] at h
    · by_cases hbr : n < s + 1
      · simp [simulate_loop, hg, hbr] at h
      · simp only [simulate_loop, if_neg hg, if_neg hbr] at h ⊢
        simp only [List.length_cons] at h
        cases k with
        | zero =>
          have hlen : 0 < (simulate_loop covStop n adj (r ∪ nbrs adj p) (nbrs adj p \ r)
              (s + 1) f).length := by omega
          obtain ⟨b, t, hbt⟩ : ∃ b t, simulate_loop covStop n adj (r ∪ nbrs adj p)
              (nbrs adj p \ r) (s + 1) f = b :: t := by
            cases hT : simulate_loop covStop n adj (r ∪ nbrs adj p) (nbrs adj p \ r)
                (s + 1) f with
            | nil => rw [hT] at hlen; simp at hlen
            | cons b t => exact ⟨b, t, rfl⟩
          have hb : (simulate_loop covStop n adj (r ∪ nbrs adj p) (nbrs adj p \ r)
              (s + 1) f).head? = some b := by rw [hbt]; rfl
          have hbeq := simulate_loop_head covStop n adj f (r ∪ nbrs adj p)
            (nbrs adj p \ r) (s + 1) b hb
          rw [hbt]
          simp only [List.getD_cons_succ, List.getD_cons_zero, if_pos rfl]
          rw [hbeq]
          exact newProp_card adj r p
        | succ m =>
          have h' : m + 1 < (simulate_loop covStop n adj (r ∪ nbrs adj p) (nbrs adj p \ r)
              (s + 1) f).length := by omega
          have ihm := ih (r ∪ nbrs adj p) (nbrs adj p \ r) (s + 1) m h'
          simp only [List.getD_cons_succ]
          simp only [Nat.succ_ne_zero, if_false, Nat.add_sub_cancel]
          cases m with
          | zero =>
            simp only [List.getD_cons_zero]
            simpa using ihm
          | succ m' =>
            simp only [List.getD_cons_succ, Nat.add_sub_cancel]
            simpa using ihm

/-- C3 fails as stated: on the 6-cycle from origin 0, the round-2 record of
the optimized simulator has `propagating_count = 2`, but
`received_count[2] - received_count[1] = 6 - 5 = 1`. -/
theorem C3_counterexample :
    ¬ (((simulate_propagation 6 cycleAdj 0).getD 2 default).propagating_count
        = ((simulate_propagation 6 cycleAdj 0).getD 2 default).received_count
          - ((simulate_propagation 6 cycleAdj 0).getD 1 default).received_count) := by
  decide

/-- C3 amended: the recorded `propagating_count` lags the claimed relation by
one round.  For both simulators: record 0 has `propagating_count = 1` (the
origin alone), and for every round `k ≥ 1` the `propagating_count` of round
`k` equals the number of nodes newly informed in round `k - 1`, i.e.
`received_count[k-1] - received_count[k-2]` (with the initial received count
1 in place of `received_count[-1]`). -/
theorem C3_propagating_lags_one_round (n : Nat) (adj : Nat → Finset Nat) (origin : Nat) :
    ((∀ rec, (simulate_propagation n adj origin).head? = some rec →
        rec.propagating_count = 1) ∧
      ∀ k, k + 1 < (simulate_propagation n adj origin).length →
        ((simulate_propagation n adj origin).getD (k + 1) default).propagating_count
          = ((simulate_propagation n adj origin).getD k default).received_count
            - (if k = 0 then 1
               else ((simulate_propagation n adj origin).getD (k - 1)
                  default).received_count)) ∧
    ((∀ rec, (simulate_propagation_simple n adj origin).head? = some rec →
        rec.propagating_count = 1) ∧
      ∀ k, k + 1 < (simulate_propagation_simple n adj origin).length →
        ((simulate_propagation_simple n adj origin).getD (k + 1) default).propagating_count
          = ((simulate_propagation_simple n adj origin).getD k default).received_count
            - (if k = 0 then 1
               else ((simulate_propagation_simple n adj origin).getD (k - 1)
                  default).received_count)) := by
  refine ⟨⟨?_, ?_⟩, ?_, ?_⟩
  · intro rec hrec
    have h := simulate_loop_head false n adj (n + 1) {origin} {origin} 0 rec hrec
    rw [h]
    exact Finset.card_singleton origin
  · intro k hk
    have h := simulate_loop_consecutive false n adj (n + 1) {origin} {origin} 0 k hk
    simpa [Finset.card_singleton] using h
  · intro rec hrec
    have h := simulate_loop_head true n adj (n + 1) {origin} {origin} 0 rec hrec
    rw [h]
    exact Finset.card_singleton origin
  · intro k hk
    have h := simulate_loop_consecutive true n adj (n + 1) {origin} {origin} 0 k hk
    simpa [Finset.card_singleton] using h

/-- Witness for the amended C3 on the 6-cycle at `k = 1`: the round-2 record
has `propagating_count = received_count[1] - received_count[0] = 5 - 3`. -/
theorem C3_witness :
    1 + 1 < (simulate_propagation 6 cycleAdj 0).length ∧
      ((simulate_propagation 6 cycleAdj 0).getD 2 default).propagating_count
        = ((simulate_propagation 6 cycleAdj 0).getD 1 default).received_count
          - (if 1 = 0 then 1
             else ((simulate_propagation 6 cycleAdj 0).getD 0 default).received_count) :=
  ⟨by decide, (C3_propagating_lags_one_round 6 cycleAdj 0).1.2 1 (by decide)⟩

/-- C4: for every graph and origin, in both simulators' traces the
received count is non-decreasing from each record to the next, and every
record satisfies `pending_count = N - received_count`. -/
theorem C4_received_monotone_pending (n : Nat) (adj : Nat → Finset Nat) (origin : Nat) :
    (List.Chain' (fun a b : StepRec => a.received_count ≤ b.received_count)
        (simulate_propagation n adj origin) ∧
      ∀ rec ∈ simulate_propagation n adj origin,
        rec.pending_count = (n : Int) - rec.received_count) ∧
    (List.Chain' (fun a b : StepRec => a.received_count ≤ b.received_count)
        (simulate_propagation_simple n adj origin) ∧
      ∀ rec ∈ simulate_propagation_simple n adj origin,
        rec.pending_count = (n : Int) - rec.received_count) :=
  ⟨⟨simulate_loop_chain false n adj (n + 1) {origin} {origin} 0,
    fun rec h => simulate_loop_pending false n adj (n + 1) {origin} {origin} 0 rec h⟩,
   ⟨simulate_loop_chain true n adj (n + 1) {origin} {origin} 0,
    fun rec h => simulate_loop_pending true n adj (n + 1) {origin} {origin} 0 rec h⟩⟩

/-- Witness for C4 on the 6-cycle: the first record of the trace satisfies
the pending-count equation. -/
theorem C4_witness :
    (⟨0, 3, 1, 3⟩ : StepRec) ∈ simulate_propagation 6 cycleAdj 0 ∧
      (⟨0, 3, 1, 3⟩ : StepRec).pending_count =
        (6 : Int) - (⟨0, 3, 1, 3⟩ : StepRec).received_count :=
  ⟨by decide, (C4_received_monotone_pending 6 cycleAdj 0).1.2 _ (by decide)⟩

/-- C7: both simulators terminate; whatever fuel the loop is given, the
safety break (`if step > self.total_nodes: break`) caps the trace at `N + 1`
records, so the round loop executes at most `N + 1` iterations. -/
theorem C7_termination (covStop : Bool) (n : Nat) (adj : Nat → Finset Nat) (origin : Nat) :
    (∀ fuel, (simulate_loop covStop n adj {origin} {origin} 0 fuel).length ≤ n + 1) ∧
    (simulate_propagation n adj origin).length ≤ n + 1 ∧
    (simulate_propagation_simple n adj origin).length ≤ n + 1 :=
  ⟨fun fuel => by
      have h := simulate_loop_length_le covStop n adj fuel {origin} {origin} 0 (Nat.zero_le n)
      simpa using h,
   by
      have h := simulate_loop_length_le false n adj (n + 1) {origin} {origin} 0 (Nat.zero_le n)
      simpa [simulate_propagation] using h,
   by
      have h := simulate_loop_length_le true n adj (n + 1) {origin} {origin} 0 (Nat.zero_le n)
      simpa [simulate_propagation_simple] using h⟩

/-- Closed adjacency maps in-range frontiers to in-range neighbor sets. -/
theorem nbrs_subset_range (n : Nat) (adj : Nat → Finset Nat)
    (hcl : ∀ i < n, ∀ j ∈ adj i, j < n) (p : Finset Nat) (hp : p ⊆ Finset.range n) :
    nbrs adj p ⊆ Finset.range n := by
  intro v hv
  rw [nbrs, Finset.mem_biUnion] at hv
  obtain ⟨u, hu, hv⟩ := hv
  exact Finset.mem_range.mpr (hcl u (Finset.mem_range.mp (hp hu)) v hv)

/-- Main loop invariant: started on a nonempty frontier contained in the
received set, with every non-frontier received node already closed under
adjacency, the loop ends (the safety break never fires first) and its last
record reports the size of a superset `R` of the received set that is closed
under adjacency — the received set at termination. -/
theorem simulate_loop_last (covStop : Bool) (n : Nat) (adj : Nat → Finset Nat)
    (hcl : ∀ i < n, ∀ j ∈ adj i, j < n) :
    ∀ (fuel : Nat) (r p : Finset Nat) (s : Nat),
      p ≠ ∅ → p ⊆ r → r ⊆ Finset.range n → s + 1 ≤ r.card → n + 1 ≤ fuel + s →
      (covStop = true → r.card < n) →
      (∀ u ∈ r, u ∉ p → ∀ v ∈ adj u, v ∈ r) →
      ∃ (R : Finset Nat) (rec : StepRec),
        (simulate_loop covStop n adj r p s fuel).getLast? = some rec ∧
        r ⊆ R ∧ R ⊆ Finset.range n ∧ (∀ u ∈ R, ∀ v ∈ adj u, v ∈ R) ∧
        rec.received_count = R.card ∧ rec.pending_count = (n : Int) - R.card := by
  intro fuel
  induction fuel with
  | zero =>
    intro r p s hp hpr hrn hcard hfuel hcov hclosure
    have h1 : r.card ≤ n := by
      calc r.card ≤ (Finset.range n).card := Finset.card_le_card hrn
        _ = n := Finset.card_range n
    omega
  | succ f ih =>
    intro r p s hp hpr hrn hcard hfuel hcov hclosure
    have hrcard : r.card ≤ n := by
      calc r.card ≤ (Finset.range n).card := Finset.card_le_card hrn
        _ = n := Finset.card_range n
    have hg : ¬ (p = ∅ ∨ (covStop = true ∧ n ≤ r.card)) := by
      push_neg
      exact ⟨hp, fun hct => by have := hcov hct; omega⟩
    have hbr : ¬ n < s + 1 := by omega
    have hr2n : r ∪ nbrs adj p ⊆ Finset.range n :=
      Finset.union_subset hrn (nbrs_subset_range n adj hcl p (hpr.trans hrn))
    have hrr2 : r ⊆ r ∪ nbrs adj p := Finset.subset_union_left
    have hnbr2 : nbrs adj p ⊆ r ∪ nbrs adj p := Finset.subset_union_right
    have hc2 : ∀ u ∈ r ∪ nbrs adj p, u ∉ nbrs adj p \ r → ∀ v ∈ adj u, v ∈ r ∪ nbrs adj p := by
      intro u hu hunp v hv
      rcases Finset.mem_union.mp hu with hur | hun
      · by_cases hup : u ∈ p
        · exact hnbr2 (Finset.mem_biUnion.mpr ⟨u, hup, hv⟩)
        · exact hrr2 (hclosure u hur hup v hv)
      · by_cases hur : u ∈ r
        · by_cases hup : u ∈ p
          · exact hnbr2 (Finset.mem_biUnion.mpr ⟨u, hup, hv⟩)
          · exact hrr2 (hclosure u hur hup v hv)
        · exact absurd (Finset.mem_sdiff.mpr ⟨hun, hur⟩) hunp
    simp only [simulate_loop, if_neg hg, if_neg hbr]
    by_cases hstop : nbrs adj p \ r = ∅ ∨ (covStop = true ∧ n ≤ (r ∪ nbrs adj p).card)
    · have htail : simulate_loop covStop n adj (r ∪ nbrs adj p) (nbrs adj p \ r) (s + 1) f
          = [] := by
        cases f with
        | zero => rfl
        | succ f' => simp only [simulate_loop, if_pos hstop]
      refine ⟨r ∪ nbrs adj p,
        ⟨s, (r ∪ nbrs adj p).card, p.card, (n : Int) - (r ∪ nbrs adj p).card⟩,
        by rw [htail]; rfl, hrr2, hr2n, ?_, rfl, rfl⟩
      rcases hstop with hnp0 | ⟨hct, hcard2⟩
      · intro u hu v hv
        exact hc2 u hu (by rw [hnp0]; exact Finset.not_mem_empty u) v hv
      · have hreq : r ∪ nbrs adj p = Finset.range n :=
          Finset.eq_of_subset_of_card_le hr2n (by rw [Finset.card_range]; exact hcard2)
        intro u hu v hv
        rw [hreq] at hu ⊢
        exact Finset.mem_range.mpr (hcl u (Finset.mem_range.mp hu) v hv)
    · push_neg at hstop
      obtain ⟨hnp0, hcov2⟩ := hstop
      have hcard2 : (s + 1) + 1 ≤ (r ∪ nbrs adj p).card := by
        have hssub : r ⊂ r ∪ nbrs adj p := by
          rw [Finset.ssubset_iff_of_subset hrr2]
          obtain ⟨x, hx⟩ := Finset.nonempty_iff_ne_empty.mpr hnp0
          exact ⟨x, hnbr2 (Finset.mem_sdiff.mp hx).1, (Finset.mem_sdiff.mp hx).2⟩
        have := Finset.card_lt_card hssub
        omega
      have hnpr2 : nbrs adj p \ r ⊆ r ∪ nbrs adj p :=
        fun x hx => hnbr2 (Finset.mem_sdiff.mp hx).1
      obtain ⟨R, rec, hlast, hsub, hRn, hRc, hrec1, hrec2⟩ :=
        ih (r ∪ nbrs adj p) (nbrs adj p \ r) (s + 1) hnp0 hnpr2 hr2n hcard2 (by omega)
          (fun hct => by have := hcov2 hct; omega) hc2
      refine ⟨R, rec, ?_, hrr2.trans hsub, hRn, hRc, hrec1, hrec2⟩
      cases hT : simulate_loop covStop n adj (r ∪ nbrs adj p) (nbrs adj p \ r) (s + 1) f with
      | nil => simp [hT] at hlast
      | cons b t =>
        rw [hT] at hlast
        rw [List.getLast?_cons_cons]
        exact hlast

/-- C5 fails as stated for the simple simulator: on the connected non-empty
one-node graph (N = 1, no edges, origin 0) its loop guard
`len(received) < total_nodes` is false immediately, the trace is empty, and
there is no final record at all. -/
theorem C5_counterexample :
    ¬ ∃ rec : StepRec, (simulate_propagation_simple 1 (fun _ => ∅) 0).getLast? = some rec ∧
        rec.received_count = 1 ∧ rec.pending_count = 0 := by
  rintro ⟨rec, hlast, -, -⟩
  have hnil : simulate_propagation_simple 1 (fun _ => ∅) 0 = [] := by decide
  rw [hnil] at hlast
  simp at hlast

/-- C5 amended: on a connected graph the optimized simulator's final record
always reports full coverage (`received_count = N`, `pending_count = 0`);
the simple simulator satisfies the same whenever `N ≥ 2` (for `N = 1` its
trace is empty because its loop guard fails immediately). -/
theorem C5_connected_full_coverage (n : Nat) (adj : Nat → Finset Nat) (origin : Nat)
    (hcl : ∀ i < n, ∀ j ∈ adj i, j < n) (ho : origin < n)
    (hconn : ∀ v < n, Reach adj origin v) :
    (∃ rec : StepRec, (simulate_propagation n adj origin).getLast? = some rec ∧
        rec.received_count = n ∧ rec.pending_count = 0) ∧
    (2 ≤ n → ∃ rec : StepRec, (simulate_propagation_simple n adj origin).getLast? = some rec ∧
        rec.received_count = n ∧ rec.pending_count = 0) := by
  have hsingle : ({origin} : Finset Nat) ⊆ Finset.range n := by
    rw [Finset.singleton_subset_iff, Finset.mem_range]
    exact ho
  have hfull : ∀ (R : Finset Nat), ({origin} : Finset Nat) ⊆ R →
      R ⊆ Finset.range n → (∀ u ∈ R, ∀ v ∈ adj u, v ∈ R) → R = Finset.range n := by
    intro R hoR hRn hRc
    refine Finset.Subset.antisymm hRn ?_
    intro v hv
    have hreach := hconn v (Finset.mem_range.mp hv)
    clear hv
    induction hreach with
    | refl => exact hoR (Finset.mem_singleton_self origin)
    | tail hab hbc ihr => exact hRc _ ihr _ hbc
  constructor
  · obtain ⟨R, rec, hlast, hsub, hRn, hRc, h1, h2⟩ :=
      simulate_loop_last false n adj hcl (n + 1) {origin} {origin} 0
        (Finset.singleton_ne_empty origin) (Finset.Subset.refl _) hsingle
        (by rw [Finset.card_singleton]) (by omega)
        (fun hct => by exact absurd hct (by simp))
        (fun u hu hnu => absurd hu hnu)
    have hReq := hfull R hsub hRn hRc
    refine ⟨rec, hlast, ?_, ?_⟩
    · rw [h1, hReq, Finset.card_range]
    · rw [h2, hReq, Finset.card_range]
      exact sub_self (n : Int)
  · intro hn2
    obtain ⟨R, rec, hlast, hsub, hRn, hRc, h1, h2⟩ :=
      simulate_loop_last true n adj hcl (n + 1) {origin} {origin} 0
        (Finset.singleton_ne_empty origin) (Finset.Subset.refl _) hsingle
        (by rw [Finset.card_singleton]) (by omega)
        (fun _ => by rw [Finset.card_singleton]; omega)
        (fun u hu hnu => absurd hu hnu)
    have hReq := hfull R hsub hRn hRc
    refine ⟨rec, hlast, ?_, ?_⟩
    · rw [h1, hReq, Finset.card_range]
    · rw [h2, hReq, Finset.card_range]
      exact sub_self (n : Int)

/-- All six nodes of the cycle are reachable from node 0. -/
theorem cycle_reach : ∀ v < 6, Reach cycleAdj 0 v := by
  have h1 : Reach cycleAdj 0 1 := Relation.ReflTransGen.single (by decide)
  have h2 : Reach cycleAdj 0 2 := Relation.ReflTransGen.tail h1 (by decide)
  have h3 : Reach cycleAdj 0 3 := Relation.ReflTransGen.tail h2 (by decide)
  have h4 : Reach cycleAdj 0 4 := Relation.ReflTransGen.tail h3 (by decide)
  have h5 : Reach cycleAdj 0 5 := Relation.ReflTransGen.tail h4 (by decide)
  intro v hv
  interval_cases v
  · exact Relation.ReflTransGen.refl
  · exact h1
  · exact h2
  · exact h3
  · exact h4
  · exact h5

/-- Witness for the amended C5 on the connected 6-cycle. -/
theorem C5_witness :
    (∀ i < 6, ∀ j ∈ cycleAdj i, j < 6) ∧ (0 : Nat) < 6 ∧
      ((∃ rec : StepRec, (simulate_propagation 6 cycleAdj 0).getLast? = some rec ∧
          rec.received_count = 6 ∧ rec.pending_count = 0) ∧
        (2 ≤ 6 → ∃ rec : StepRec,
            (simulate_propagation_simple 6 cycleAdj 0).getLast? = some rec ∧
            rec.received_count = 6 ∧ rec.pending_count = 0)) :=
  ⟨by decide, by decide,
    C5_connected_full_coverage 6 cycleAdj 0 (by decide) (by decide) cycle_reach⟩

/-- The simple simulator's trace is an initial segment of the optimized
simulator's trace on the same graph and origin. -/
theorem simulate_loop_simple_take (n : Nat) (adj : Nat → Finset Nat) :
    ∀ (fuel : Nat) (r p : Finset Nat) (s : Nat),
      simulate_loop true n adj r p s fuel
        = (simulate_loop false n adj r p s fuel).take
            (simulate_loop true n adj r p s fuel).length := by
  intro fuel
  induction fuel with
  | zero => intro r p s; simp [simulate_loop]
  | succ f ih =>
    intro r p s
    by_cases hp : p = ∅
    · rw [simulate_loop_succ_stop true n adj r p s f (Or.inl hp),
        simulate_loop_succ_stop false n adj r p s f (Or.inl hp)]
      rfl
    · by_cases hcov : n ≤ r.card
      · rw [simulate_loop_succ_stop true n adj r p s f (Or.inr ⟨rfl, hcov⟩)]
        rfl
      · have hgT : ¬ (p = ∅ ∨ (true = true ∧ n ≤ r.card)) := by
          rintro (h | ⟨-, h⟩)
          · exact hp h
          · exact hcov h
        have hgF : ¬ (p = ∅ ∨ (false = true ∧ n ≤ r.card)) := by
          rintro (h | ⟨h, -⟩)
          · exact hp h
          · exact Bool.false_ne_true h
        by_cases hbr : n < s + 1
        · rw [simulate_loop_succ_break true n adj r p s f hgT hbr,
            simulate_loop_succ_break false n adj r p s f hgF hbr]
          rfl
        · rw [simulate_loop_succ_continue true n adj r p s f hgT hbr,
            simulate_loop_succ_continue false n adj r p s f hgF hbr]
          simp only [List.length_cons, List.take_succ_cons]
          rw [← ih]

/-- On a closed in-range graph the optimized simulator's trace has at most
one record more than the simple simulator's. -/
theorem simulate_loop_length_pair (n : Nat) (adj : Nat → Finset Nat)
    (hcl : ∀ i < n, ∀ j ∈ adj i, j < n) :
    ∀ (fuel : Nat) (r p : Finset Nat) (s : Nat),
      r ⊆ Finset.range n → p ⊆ Finset.range n →
      (simulate_loop false n adj r p s fuel).length
        ≤ (simulate_loop true n adj r p s fuel).length + 1 := by
  intro fuel
  induction fuel with
  | zero => intro r p s _ _; simp [simulate_loop]
  | succ f ih =>
    intro r p s hrn hpn
    by_cases hp : p = ∅
    · rw [simulate_loop_succ_stop true n adj r p s f (Or.inl hp),
        simulate_loop_succ_stop false n adj r p s f (Or.inl hp)]
      simp
    · have hgF : ¬ (p = ∅ ∨ (false = true ∧ n ≤ r.card)) := by
        rintro (h | ⟨h, -⟩)
        · exact hp h
        · exact Bool.false_ne_true h
      by_cases hcov : n ≤ r.card
      · have hnb : nbrs adj p ⊆ r := by
          have hreq : r = Finset.range n :=
            Finset.eq_of_subset_of_card_le hrn (by rw [Finset.card_range]; exact hcov)
          rw [hreq]
          exact nbrs_subset_range n adj hcl p hpn
        have hnp : nbrs adj p \ r = ∅ := Finset.sdiff_eq_empty_iff_subset.mpr hnb
        rw [simulate_loop_succ_stop true n adj r p s f (Or.inr ⟨rfl, hcov⟩)]
        by_cases hbr : n < s + 1
        · rw [simulate_loop_succ_break false n adj r p s f hgF hbr]
          simp
        · rw [simulate_loop_succ_continue false n adj r p s f hgF hbr]
          have htail : simulate_loop false n adj (r ∪ nbrs adj p) (nbrs adj p \ r)
              (s + 1) f = [] := by
            cases f with
            | zero => rfl
            | succ f' =>
              exact simulate_loop_succ_stop false n adj _ _ (s + 1) f' (Or.inl hnp)
          rw [htail]
          simp
      · have hgT : ¬ (p = ∅ ∨ (true = true ∧ n ≤ r.card)) := by
          rintro (h | ⟨-, h⟩)
          · exact hp h
          · exact hcov h
        by_cases hbr : n < s + 1
        · rw [simulate_loop_succ_break true n adj r p s f hgT hbr,
            simulate_loop_succ_break false n adj r p s f hgF hbr]
          simp
        · rw [simulate_loop_succ_continue true n adj r p s f hgT hbr,
            simulate_loop_succ_continue false n adj r p s f hgF hbr]
          simp only [List.length_cons]
          have h2 : r ∪ nbrs adj p ⊆ Finset.range n :=
            Finset.union_subset hrn (nbrs_subset_range n adj hcl p hpn)
          have h3 : nbrs adj p \ r ⊆ Finset.range n :=
            fun x hx => (nbrs_subset_range n adj hcl p hpn) (Finset.mem_sdiff.mp hx).1
          have h4 := ih (r ∪ nbrs adj p) (nbrs adj p \ r) (s + 1) h2 h3
          omega

/-- C10 fails as stated: on the one-node graph the optimized simulator
records one round while the simple simulator records none. -/
theorem C10_counterexample :
    simulate_propagation 1 (fun _ => ∅) 0 ≠ simulate_propagation_simple 1 (fun _ => ∅) 0 := by
  decide

/-- C10 amended: the two simulators agree record for record as far as the
simple simulator's trace goes (it is a take-front of the optimized trace),
and the optimized trace has at most one extra trailing record — the one it
appends after full coverage before its propagating set empties. -/
theorem C10_simple_trace_truncates (n : Nat) (adj : Nat → Finset Nat) (origin : Nat)
    (hcl : ∀ i < n, ∀ j ∈ adj i, j < n) (ho : origin < n) :
    simulate_propagation_simple n adj origin
      = (simulate_propagation n adj origin).take
          (simulate_propagation_simple n adj origin).length ∧
    (simulate_propagation n adj origin).length
      ≤ (simulate_propagation_simple n adj origin).length + 1 := by
  constructor
  · exact simulate_loop_simple_take n adj (n + 1) {origin} {origin} 0
  · have hs : ({origin} : Finset Nat) ⊆ Finset.range n := by
      rw [Finset.singleton_subset_iff, Finset.mem_range]
      exact ho
    exact simulate_loop_length_pair n adj hcl (n + 1) {origin} {origin} 0 hs hs

/-- Witness for the amended C10 on the 6-cycle. -/
theorem C10_witness :
    (∀ i < 6, ∀ j ∈ cycleAdj i, j < 6) ∧ (0 : Nat) < 6 ∧
      (simulate_propagation_simple 6 cycleAdj 0
          = (simulate_propagation 6 cycleAdj 0).take
              (simulate_propagation_simple 6 cycleAdj 0).length ∧
        (simulate_propagation 6 cycleAdj 0).length
          ≤ (simulate_propagation_simple 6 cycleAdj 0).length + 1) :=
  ⟨by decide, by decide, C10_simple_trace_truncates 6 cycleAdj 0 (by decide) (by decide)⟩

/-- C2 fails as stated: on the 6-cycle from origin 0, the optimized simulator
produces 4 records, not 3, and the simple simulator's 3 records differ from
the claimed ones (the recorded `propagating_count` is the size of the sending
set of the round, not of the newly informed set). -/
theorem C2_counterexample :
    (simulate_propagation 6 cycleAdj 0).length ≠ 3 ∧
    simulate_propagation_simple 6 cycleAdj 0 ≠
      [⟨0, 3, 2, 3⟩, ⟨1, 5, 2, 1⟩, ⟨2, 6, 1, 0⟩] := by
  constructor
  · decide
  · decide

/-- C2 amended: the actual traces on the 6-cycle from origin 0.  Each record
stores (round, received, senders, pending); full coverage (received = 6,
pending = 0) is reached in the round-2 record; the simple simulator then
stops while the optimized one appends one further record with an empty
newly-informed set before its propagating set empties. -/
theorem C2_cycle_trace :
    simulate_propagation 6 cycleAdj 0 =
      [⟨0, 3, 1, 3⟩, ⟨1, 5, 2, 1⟩, ⟨2, 6, 2, 0⟩, ⟨3, 6, 1, 0⟩] ∧
    simulate_propagation_simple 6 cycleAdj 0 =
      [⟨0, 3, 1, 3⟩, ⟨1, 5, 2, 1⟩, ⟨2, 6, 2, 0⟩] := by
  constructor
  · decide
  · decide

/-- C6 fails as stated at `distance_weight = 0`: with `max_distance = 1/2`
in `(0,1]`, weight `0 ≥ 0` and `d = max_distance`, the computed probability
is `0 ** 0 = 1`, not 0. -/
theorem C6_counterexample :
    (0:ℝ) < 1/2 ∧ (1/2:ℝ) ≤ 1 ∧ (0:ℝ) ≤ 0 ∧
      connection_probability (1/2) 0 (1/2) = 1 ∧
      connection_probability (1/2) 0 (1/2) ≠ 0 := by
  refine ⟨by norm_num, by norm_num, le_refl 0, ?_, ?_⟩
  · rw [connection_probability, Real.rpow_zero]
  · rw [connection_probability, Real.rpow_zero]
    exact one_ne_zero

/-- C6 amended: for `max_distance ∈ (0,1]` and `distance_weight ≥ 0` the
probability equals `(1 - d/max_distance) ^ distance_weight`, lies in `[0,1]`
on `[0, max_distance]` with no clamping needed, is non-increasing in the
distance, equals 1 at distance 0, and equals 0 at `d = max_distance`
PROVIDED `distance_weight > 0` (at weight 0 it is the constant 1, since
`pow(x, 0) = 1`). -/
theorem C6_connection_probability_props (md w : ℝ)
    (hmd0 : 0 < md) (hmd1 : md ≤ 1) (hw : 0 ≤ w) :
    (∀ d, 0 ≤ d → d ≤ md →
      connection_probability md w d = (1 - d / md) ^ w ∧
      0 ≤ connection_probability md w d ∧ connection_probability md w d ≤ 1) ∧
    (∀ d1 d2, 0 ≤ d1 → d1 ≤ d2 → d2 ≤ md →
      connection_probability md w d2 ≤ connection_probability md w d1) ∧
    connection_probability md w 0 = 1 ∧
    (0 < w → connection_probability md w md = 0) := by
  have base_nonneg : ∀ d, d ≤ md → 0 ≤ 1 - d / md := by
    intro d hd
    have h1 : d / md ≤ 1 := (div_le_one hmd0).mpr hd
    linarith
  have base_le_one : ∀ d, 0 ≤ d → 1 - d / md ≤ 1 := by
    intro d hd
    have h1 : 0 ≤ d / md := div_nonneg hd (le_of_lt hmd0)
    linarith
  refine ⟨?_, ?_, ?_, ?_⟩
  · intro d hd0 hdm
    exact ⟨rfl, Real.rpow_nonneg (base_nonneg d hdm) w,
      Real.rpow_le_one (base_nonneg d hdm) (base_le_one d hd0) hw⟩
  · intro d1 d2 h1 h12 h2m
    have hdiv : d1 / md ≤ d2 / md := by gcongr
    have hbase : 1 - d2 / md ≤ 1 - d1 / md := by linarith
    exact Real.rpow_le_rpow (base_nonneg d2 h2m) hbase hw
  · rw [connection_probability, zero_div, sub_zero, Real.one_rpow]
  · intro hw0
    rw [connection_probability, div_self (ne_of_gt hmd0), sub_self,
      Real.zero_rpow (ne_of_gt hw0)]

/-- Witness for the amended C6 at `max_distance = 1`, `distance_weight = 1`. -/
theorem C6_witness :
    (0:ℝ) < 1 ∧ (1:ℝ) ≤ 1 ∧ (0:ℝ) ≤ 1 ∧
      ((∀ d, 0 ≤ d → d ≤ 1 →
          connection_probability 1 1 d = (1 - d / 1) ^ (1:ℝ) ∧
          0 ≤ connection_probability 1 1 d ∧ connection_probability 1 1 d ≤ 1) ∧
        (∀ d1 d2, 0 ≤ d1 → d1 ≤ d2 → d2 ≤ 1 →
          connection_probability 1 1 d2 ≤ connection_probability 1 1 d1) ∧
        connection_probability 1 1 0 = 1 ∧
        (0 < (1:ℝ) → connection_probability 1 1 1 = 0)) :=
  ⟨by norm_num, le_refl 1, by norm_num,
    C6_connection_probability_props 1 1 (by norm_num) (le_refl 1) (by norm_num)⟩

/-- C8 fails as stated: when the graph is connected but the exact metric
computation raises, `average_clustering` is reported as the plain number 0 —
a silent zero, not an 'undefined' sentinel. -/
theorem C8_counterexample :
    (clustering_path_report true false 0 0).1 = MetricEntry.num 0 ∧
      MetricEntry.num (0:ℝ) ≠ MetricEntry.absent ∧
      MetricEntry.num (0:ℝ) ≠ MetricEntry.infinity :=
  ⟨rfl, fun h => MetricEntry.noConfusion h, fun h => MetricEntry.noConfusion h⟩

/-- C8 amended: on a disconnected graph the two metric keys are omitted from
the properties dict entirely (no sentinel value is written); on a connected
graph whose exact computation raises, `average_path_length` is the sentinel
`inf` but `average_clustering` is the silent zero. -/
theorem C8_metric_reporting (exact_ok : Bool) (clustering path_len : ℝ) :
    clustering_path_report false exact_ok clustering path_len
        = (MetricEntry.absent, MetricEntry.absent) ∧
      clustering_path_report true false clustering path_len
        = (MetricEntry.num 0, MetricEntry.infinity) :=
  ⟨rfl, rfl⟩

/-- The candidate scan never admits the scanned node itself (`j != node_idx`
in the simple script, removal of `node_idx` from `nearby_indices` in the
optimized one). -/
theorem scan_no_self (md w : ℝ) (positions : List (ℝ × ℝ)) (u : Nat → ℝ) (i : Nat) :
    ∀ (js : List Nat) (st : List Nat × Nat), i ∉ st.1 →
      i ∉ (js.foldl (scan_step md w positions u i) st).1 := by
  intro js
  induction js with
  | nil => intro st h; exact h
  | cons j t ih =>
    intro st h
    simp only [List.foldl_cons]
    apply ih
    rw [scan_step]
    split
    · exact h
    · rename_i hji
      split
      · dsimp only
        split
        · simp only [List.mem_append, List.mem_singleton]
          rintro (hh | hh)
          · exact h hh
          · exact hji hh.symm
        · exact h
      · exact h

/-- `find_geographical_neighbors` never returns the node itself, as long as
`sample` returns a selection of its input (which `random.sample` does). -/
theorem find_neighbors_no_self (md w : ℝ) (k : Nat)
    (sample : List Nat → Nat → List Nat) (hs : ∀ l m, ∀ x ∈ sample l m, x ∈ l)
    (positions : List (ℝ × ℝ)) (u : Nat → ℝ) (i c : Nat) :
    i ∉ (find_geographical_neighbors md w k sample positions u i c).1 := by
  have hscan : i ∉ ((List.range positions.length).foldl
      (scan_step md w positions u i) ([], c)).1 :=
    scan_no_self md w positions u i (List.range positions.length) ([], c)
      (List.not_mem_nil i)
  simp only [find_geographical_neighbors]
  split
  · intro hmem
    exact hscan (hs _ k _ hmem)
  · exact hscan

/-- Membership after `networkx.Graph.add_edge`. -/
theorem mem_nx_add_edge (g : Nat → Finset Nat) (i j a b : Nat) :
    b ∈ nx_add_edge g i j a ↔ (a = i ∧ b = j) ∨ (a = j ∧ b = i) ∨ b ∈ g a := by
  rw [nx_add_edge]
  by_cases hai : a = i
  · rw [if_pos hai, Finset.mem_insert]
    constructor
    · rintro (h | h)
      · exact Or.inl ⟨hai, h⟩
      · rw [hai]
        exact Or.inr (Or.inr h)
    · rintro (⟨-, h⟩ | ⟨haj, h⟩ | h)
      · exact Or.inl h
      · exact Or.inl (h.trans (hai.symm.trans haj))
      · rw [hai] at h
        exact Or.inr h
  · rw [if_neg hai]
    by_cases haj : a = j
    · rw [if_pos haj, Finset.mem_insert]
      constructor
      · rintro (h | h)
        · exact Or.inr (Or.inl ⟨haj, h⟩)
        · rw [haj]
          exact Or.inr (Or.inr h)
      · rintro (⟨h, -⟩ | ⟨-, h⟩ | h)
        · exact absurd h hai
        · exact Or.inl h
        · rw [haj] at h
          exact Or.inr h
    · rw [if_neg haj]
      constructor
      · intro h
        exact Or.inr (Or.inr h)
      · rintro (⟨h, -⟩ | ⟨h, -⟩ | h)
        · exact absurd h hai
        · exact absurd h haj
        · exact h

/-- `_add_connections` preserves absence of self-loops and symmetry of the
adjacency sets, provided the inserted neighbor list does not contain the
node itself. -/
theorem add_connections_inv (i : Nat) :
    ∀ (ns : List Nat), i ∉ ns → ∀ g : Nat → Finset Nat,
      (∀ a, a ∉ g a) → (∀ a b, b ∈ g a ↔ a ∈ g b) →
      (∀ a, a ∉ add_connections g i ns a) ∧
        (∀ a b, b ∈ add_connections g i ns a ↔ a ∈ add_connections g i ns b) := by
  intro ns
  induction ns with
  | nil => intro _ g h1 h2; exact ⟨h1, h2⟩
  | cons j t ih =>
    intro hin g h1 h2
    have hij : ¬ i = j := fun h => hin (h ▸ List.mem_cons_self j t)
    have hint : i ∉ t := fun h => hin (List.mem_cons_of_mem j h)
    have hstep : add_connections g i (j :: t)
        = add_connections (if j ∈ g i then g else nx_add_edge g i j) i t := by
      simp only [add_connections, List.foldl_cons]
    rw [hstep]
    by_cases hjg : j ∈ g i
    · rw [if_pos hjg]
      exact ih hint g h1 h2
    · rw [if_neg hjg]
      have h1' : ∀ a, a ∉ nx_add_edge g i j a := by
        intro a ha
        rcases (mem_nx_add_edge g i j a a).mp ha with ⟨hai, haj⟩ | ⟨haj, hai⟩ | h
        · exact hij (hai.symm.trans haj)
        · exact hij (hai.symm.trans haj)
        · exact h1 a h
      have h2' : ∀ a b, b ∈ nx_add_edge g i j a ↔ a ∈ nx_add_edge g i j b := by
        intro a b
        rw [mem_nx_add_edge, mem_nx_add_edge, h2 a b]
        tauto
      exact ih hint (nx_add_edge g i j) h1' h2'

/-- Shape of the list adjacency after one guarded symmetric insertion of a
fresh edge. -/
theorem add_edge_simple_of_not_mem (net : Nat → List Nat) (i j : Nat) (hij : ¬ i = j)
    (hj : j ∉ net i) :
    add_edge_simple net i j i = net i ++ [j] ∧
    add_edge_simple net i j j = net j ++ [i] ∧
    ∀ a, ¬ a = i → ¬ a = j → add_edge_simple net i j a = net a := by
  rw [add_edge_simple, if_neg hj]
  have hji : ¬ j = i := fun h => hij h.symm
  refine ⟨?_, ?_, ?_⟩
  · simp [listInsert, hij]
  · simp [listInsert, hji]
  · intro a hai haj
    simp [listInsert, hai, haj]

/-- Membership after one guarded symmetric insertion with `i ≠ j`. -/
theorem mem_add_edge_simple (net : Nat → List Nat) (i j : Nat) (hij : ¬ i = j)
    (h2 : ∀ a b, b ∈ net a ↔ a ∈ net b) (a b : Nat) :
    b ∈ add_edge_simple net i j a ↔
      ((a = i ∧ b = j) ∨ (a = j ∧ b = i) ∨ b ∈ net a) := by
  by_cases hjg : j ∈ net i
  · rw [add_edge_simple, if_pos hjg]
    constructor
    · intro h
      exact Or.inr (Or.inr h)
    · rintro (⟨hai, hbj⟩ | ⟨haj, hbi⟩ | h)
      · rw [hai, hbj]
        exact hjg
      · rw [haj, hbi]
        exact (h2 j i).mpr hjg
      · exact h
  · obtain ⟨e1, e2, e3⟩ := add_edge_simple_of_not_mem net i j hij hjg
    by_cases hai : a = i
    · rw [hai, e1, List.mem_append, List.mem_singleton]
      constructor
      · rintro (h | h)
        · exact Or.inr (Or.inr h)
        · exact Or.inl ⟨rfl, h⟩
      · rintro (⟨-, h⟩ | ⟨h, -⟩ | h)
        · exact Or.inr h
        · exact absurd h hij
        · exact Or.inl h
    · by_cases haj : a = j
      · rw [haj, e2, List.mem_append, List.mem_singleton]
        constructor
        · rintro (h | h)
          · exact Or.inr (Or.inr h)
          · exact Or.inr (Or.inl ⟨rfl, h⟩)
        · rintro (⟨h, -⟩ | ⟨-, h⟩ | h)
          · exact absurd h.symm hij
          · exact Or.inr h
          · exact Or.inl h
      · rw [e3 a hai haj]
        constructor
        · intro h
          exact Or.inr (Or.inr h)
        · rintro (⟨h, -⟩ | ⟨h, -⟩ | h)
          · exact absurd h hai
          · exact absurd h haj
          · exact h

/-- The per-node insertion loop of the simple builder preserves absence of
self-loops, symmetry, and duplicate-freeness of the adjacency lists. -/
theorem add_neighbors_simple_inv (i : Nat) :
    ∀ (ns : List Nat), i ∉ ns → ∀ net : Nat → List Nat,
      (∀ a, a ∉ net a) → (∀ a b, b ∈ net a ↔ a ∈ net b) → (∀ a, (net a).Nodup) →
      (∀ a, a ∉ add_neighbors_simple net i ns a) ∧
        (∀ a b, b ∈ add_neighbors_simple net i ns a ↔ a ∈ add_neighbors_simple net i ns b) ∧
        (∀ a, (add_neighbors_simple net i ns a).Nodup) := by
  intro ns
  induction ns with
  | nil => intro _ net h1 h2 h3; exact ⟨h1, h2, h3⟩
  | cons j t ih =>
    intro hin net h1 h2 h3
    have hij : ¬ i = j := fun h => hin (h ▸ List.mem_cons_self j t)
    have hint : i ∉ t := fun h => hin (List.mem_cons_of_mem j h)
    have hstep : add_neighbors_simple net i (j :: t)
        = add_neighbors_simple (add_edge_simple net i j) i t := by
      simp only [add_neighbors_simple, List.foldl_cons]
    rw [hstep]
    have h1' : ∀ a, a ∉ add_edge_simple net i j a := by
      intro a ha
      rcases (mem_add_edge_simple net i j hij h2 a a).mp ha with
        ⟨hai, haj⟩ | ⟨haj, hai⟩ | h
      · exact hij (hai.symm.trans haj)
      · exact hij (hai.symm.trans haj)
      · exact h1 a h
    have h2' : ∀ a b, b ∈ add_edge_simple net i j a ↔ a ∈ add_edge_simple net i j b := by
      intro a b
      rw [mem_add_edge_simple net i j hij h2, mem_add_edge_simple net i j hij h2, h2 a b]
      tauto
    have h3' : ∀ a, (add_edge_simple net i j a).Nodup := by
      by_cases hjg : j ∈ net i
      · intro a
        rw [add_edge_simple, if_pos hjg]
        exact h3 a
      · obtain ⟨e1, e2, e3⟩ := add_edge_simple_of_not_mem net i j hij hjg
        intro a
        by_cases hai : a = i
        · rw [hai, e1]
          exact List.Nodup.append (h3 i) (List.nodup_singleton j)
            (List.disjoint_singleton.mpr hjg)
        · by_cases haj : a = j
          · rw [haj, e2]
            exact List.Nodup.append (h3 j) (List.nodup_singleton i)
              (List.disjoint_singleton.mpr (fun h => hjg ((h2 j i).mp h)))
          · rw [e3 a hai haj]
            exact h3 a
    exact ih hint (add_edge_simple net i j) h1' h2' h3'

/-- The optimized generator's node loop preserves the graph invariants from
any intermediate state. -/
theorem node_fold_inv_optimized (md w : ℝ) (k : Nat)
    (sample : List Nat → Nat → List Nat) (hs : ∀ l m, ∀ x ∈ sample l m, x ∈ l)
    (positions : List (ℝ × ℝ)) (u : Nat → ℝ) :
    ∀ (order : List Nat) (st : (Nat → Finset Nat) × Nat),
      (∀ a, a ∉ st.1 a) → (∀ a b, b ∈ st.1 a ↔ a ∈ st.1 b) →
      (∀ a, a ∉ (order.foldl (node_pass_optimized md w k sample positions u) st).1 a) ∧
        (∀ a b, b ∈ (order.foldl (node_pass_optimized md w k sample positions u) st).1 a
          ↔ a ∈ (order.foldl (node_pass_optimized md w k sample positions u) st).1 b) := by
  intro order
  induction order with
  | nil => intro st h1 h2; exact ⟨h1, h2⟩
  | cons i t ih =>
    intro st h1 h2
    simp only [List.foldl_cons]
    apply ih
    all_goals
      have hself := find_neighbors_no_self md w k sample hs positions u i st.2
      have hinv := add_connections_inv i
        (find_geographical_neighbors md w k sample positions u i st.2).1 hself st.1 h1 h2
    · exact hinv.1
    · exact hinv.2

/-- The simple generator's node loop preserves the adjacency-list invariants
from any intermediate state. -/
theorem node_fold_inv_simple (md w : ℝ) (k : Nat)
    (sample : List Nat → Nat → List Nat) (hs : ∀ l m, ∀ x ∈ sample l m, x ∈ l)
    (positions : List (ℝ × ℝ)) (u : Nat → ℝ) :
    ∀ (order : List Nat) (st : (Nat → List Nat) × Nat),
      (∀ a, a ∉ st.1 a) → (∀ a b, b ∈ st.1 a ↔ a ∈ st.1 b) → (∀ a, (st.1 a).Nodup) →
      (∀ a, a ∉ (order.foldl (node_pass_simple md w k sample positions u) st).1 a) ∧
        (∀ a b, b ∈ (order.foldl (node_pass_simple md w k sample positions u) st).1 a
          ↔ a ∈ (order.foldl (node_pass_simple md w k sample positions u) st).1 b) ∧
        (∀ a, ((order.foldl (node_pass_simple md w k sample positions u) st).1 a).Nodup) := by
  intro order
  induction order with
  | nil => intro st h1 h2 h3; exact ⟨h1, h2, h3⟩
  | cons i t ih =>
    intro st h1 h2 h3
    simp only [List.foldl_cons]
    apply ih
    all_goals
      have hself := find_neighbors_no_self md w k sample hs positions u i st.2
      have hinv := add_neighbors_simple_inv i
        (find_geographical_neighbors md w k sample positions u i st.2).1 hself st.1 h1 h2 h3
    · exact hinv.1
    · exact hinv.2.1
    · exact hinv.2.2

/-- C1: for any positions, parameters, batch size and random stream, the
graphs built by both generators have no self-loop and a symmetric adjacency
structure, and the simple generator's adjacency lists are duplicate-free
(the optimized generator stores neighbors as sets, so an unordered pair
cannot appear twice by construction).  The only assumption is that `sample`
(modelling `random.sample`) returns a selection of its input. -/
theorem C1_no_self_symmetric_no_dup (md w : ℝ) (k : Nat)
    (sample : List Nat → Nat → List Nat) (positions : List (ℝ × ℝ)) (u : Nat → ℝ)
    (b : Nat) (hs : ∀ l m, ∀ x ∈ sample l m, x ∈ l) :
    (∀ a, a ∉ create_geographical_network_optimized md w k sample positions u b a) ∧
    (∀ a c, c ∈ create_geographical_network_optimized md w k sample positions u b a
      ↔ a ∈ create_geographical_network_optimized md w k sample positions u b c) ∧
    (∀ a, a ∉ create_network md w k sample positions u a) ∧
    (∀ a c, c ∈ create_network md w k sample positions u a
      ↔ a ∈ create_network md w k sample positions u c) ∧
    (∀ a, (create_network md w k sample positions u a).Nodup) := by
  have hopt := node_fold_inv_optimized md w k sample hs positions u
    (batch_order positions.length b) (fun _ => (∅ : Finset Nat), 0)
    (fun a => Finset.not_mem_empty a) (fun a b' => by simp)
  have hsim := node_fold_inv_simple md w k sample hs positions u
    (batch_order positions.length (min 1000 positions.length))
    (fun _ => ([] : List Nat), 0)
    (fun a => List.not_mem_nil a) (fun a b' => by simp) (fun a => List.nodup_nil)
  exact ⟨hopt.1, hopt.2, hsim.1, hsim.2.1, hsim.2.2⟩

/-- Witness for C1 with the identity subsampler on a one-node layout. -/
theorem C1_witness :
    (∀ (l : List Nat) (m : Nat), ∀ x ∈ (fun (l : List Nat) (_ : Nat) => l) l m, x ∈ l) ∧
      ((∀ a, a ∉ create_geographical_network_optimized 1 1 0
          (fun l _ => l) [((0:ℝ), (0:ℝ))] (fun _ => 0) 1 a) ∧
        (∀ a c, c ∈ create_geographical_network_optimized 1 1 0
            (fun l _ => l) [((0:ℝ), (0:ℝ))] (fun _ => 0) 1 a
          ↔ a ∈ create_geographical_network_optimized 1 1 0
              (fun l _ => l) [((0:ℝ), (0:ℝ))] (fun _ => 0) 1 c) ∧
        (∀ a, a ∉ create_network 1 1 0 (fun l _ => l) [((0:ℝ), (0:ℝ))] (fun _ => 0) a) ∧
        (∀ a c, c ∈ create_network 1 1 0 (fun l _ => l) [((0:ℝ), (0:ℝ))] (fun _ => 0) a
          ↔ a ∈ create_network 1 1 0 (fun l _ => l) [((0:ℝ), (0:ℝ))] (fun _ => 0) c) ∧
        (∀ a, (create_network 1 1 0 (fun l _ => l) [((0:ℝ), (0:ℝ))] (fun _ => 0) a).Nodup)) :=
  ⟨fun _ _ _ h => h,
    C1_no_self_symmetric_no_dup 1 1 0 (fun l _ => l) [((0:ℝ), (0:ℝ))] (fun _ => 0) 1
      (fun _ _ _ h => h)⟩

/-- The scan skips the node itself without consuming a draw. -/
theorem scan_step_self (md w : ℝ) (positions : List (ℝ × ℝ)) (u : Nat → ℝ) (i : Nat)
    (st : List Nat × Nat) : scan_step md w positions u i st i = st := by
  rw [scan_step, if_pos rfl]

/-- An in-radius candidate whose draw is below its probability is admitted. -/
theorem scan_step_hit (md w : ℝ) (positions : List (ℝ × ℝ)) (u : Nat → ℝ) (i : Nat)
    (st : List Nat × Nat) (j : Nat) (hj : ¬ j = i)
    (hd : calculate_distance (positions.getD i (0, 0)) (positions.getD j (0, 0)) ≤ md)
    (hu : u st.2 < connection_probability md w
      (calculate_distance (positions.getD i (0, 0)) (positions.getD j (0, 0)))) :
    scan_step md w positions u i st j = (st.1 ++ [j], st.2 + 1) := by
  rw [scan_step, if_neg hj, if_pos hd, if_pos hu]

/-- An in-radius candidate whose draw is not below its probability consumes
its draw but is rejected. -/
theorem scan_step_miss (md w : ℝ) (positions : List (ℝ × ℝ)) (u : Nat → ℝ) (i : Nat)
    (st : List Nat × Nat) (j : Nat) (hj : ¬ j = i)
    (hd : calculate_distance (positions.getD i (0, 0)) (positions.getD j (0, 0)) ≤ md)
    (hu : ¬ u st.2 < connection_probability md w
      (calculate_distance (positions.getD i (0, 0)) (positions.getD j (0, 0)))) :
    scan_step md w positions u i st j = (st.1, st.2 + 1) := by
  rw [scan_step, if_neg hj, if_pos hd, if_neg hu]

/-- Distance from the origin node to node 1's position. -/
theorem cex_dist_01 : calculate_distance ((0:ℝ), (0:ℝ)) ((1/2:ℝ), (0:ℝ)) = 1/2 := by
  rw [calculate_distance]
  rw [show ((0:ℝ) - 1/2) * ((0:ℝ) - 1/2) + ((0:ℝ) - 0) * ((0:ℝ) - 0) = (1/2) ^ 2 by ring]
  exact Real.sqrt_sq (by norm_num)

/-- Distance from node 1's position back to the origin node. -/
theorem cex_dist_10 : calculate_distance ((1/2:ℝ), (0:ℝ)) ((0:ℝ), (0:ℝ)) = 1/2 := by
  rw [calculate_distance]
  rw [show ((1/2:ℝ) - 0) * ((1/2:ℝ) - 0) + ((0:ℝ) - 0) * ((0:ℝ) - 0) = (1/2) ^ 2 by ring]
  exact Real.sqrt_sq (by norm_num)

/-- Distance between the coincident nodes 1 and 2. -/
theorem cex_dist_12 : calculate_distance ((1/2:ℝ), (0:ℝ)) ((1/2:ℝ), (0:ℝ)) = 0 := by
  rw [calculate_distance]
  rw [show ((1/2:ℝ) - 1/2) * ((1/2:ℝ) - 1/2) + ((0:ℝ) - 0) * ((0:ℝ) - 0) = (0:ℝ) by ring]
  exact Real.sqrt_zero

/-- Probability at distance 1/2 with radius 1 and weight 1. -/
theorem cex_prob_half : connection_probability 1 1 (1/2) = 1/2 := by
  rw [connection_probability, Real.rpow_one]
  norm_num

/-- Probability at distance 0 with radius 1 and weight 1. -/
theorem cex_prob_zero_dist : connection_probability 1 1 0 = 1 := by
  rw [connection_probability, Real.rpow_one]
  norm_num

/-- Neighbor search of node 0 from draw counter 0: both in-radius candidates
draw 9/10 against probability 1/2 and are rejected. -/
theorem cex_find_0_0 :
    find_geographical_neighbors 1 1 20 (fun l _ => l) cexPositions cexU 0 0 = ([], 2) := by
  have hr : List.range cexPositions.length = [0, 1, 2] := by decide
  have hget0 : cexPositions.getD 0 ((0:ℝ), (0:ℝ)) = ((0:ℝ), (0:ℝ)) := rfl
  have hget1 : cexPositions.getD 1 ((0:ℝ), (0:ℝ)) = ((1/2:ℝ), (0:ℝ)) := rfl
  have hget2 : cexPositions.getD 2 ((0:ℝ), (0:ℝ)) = ((1/2:ℝ), (0:ℝ)) := rfl
  have hs1 : scan_step 1 1 cexPositions cexU 0 ([], 0) 1 = ([], 1) :=
    (scan_step_miss 1 1 cexPositions cexU 0 ([], 0) 1 (by decide)
      (by rw [hget0, hget1, cex_dist_01]; norm_num)
      (by
        rw [hget0, hget1, cex_dist_01, cex_prob_half]
        show ¬ cexU 0 < 1/2
        rw [show cexU 0 = 9/10 from rfl]
        norm_num)).trans rfl
  have hs2 : scan_step 1 1 cexPositions cexU 0 ([], 1) 2 = ([], 2) :=
    (scan_step_miss 1 1 cexPositions cexU 0 ([], 1) 2 (by decide)
      (by rw [hget0, hget2, cex_dist_01]; norm_num)
      (by
        rw [hget0, hget2, cex_dist_01, cex_prob_half]
        show ¬ cexU 1 < 1/2
        rw [show cexU 1 = 9/10 from rfl]
        norm_num)).trans rfl
  have hfold : (List.range cexPositions.length).foldl
      (scan_step 1 1 cexPositions cexU 0) ([], 0) = ([], 2) := by
    rw [hr]
    simp only [List.foldl_cons, List.foldl_nil]
    rw [scan_step_self 1 1 cexPositions cexU 0 ([], 0), hs1, hs2]
  simp only [find_geographical_neighbors, hfold]
  norm_num

/-- Neighbor search of node 1 from draw counter 2: node 0 is rejected on
draw 9/10, coincident node 2 is admitted on draw 0. -/
theorem cex_find_1_2 :
    find_geographical_neighbors 1 1 20 (fun l _ => l) cexPositions cexU 1 2 = ([2], 4) := by
  have hr : List.range cexPositions.length = [0, 1, 2] := by decide
  have hget0 : cexPositions.getD 0 ((0:ℝ), (0:ℝ)) = ((0:ℝ), (0:ℝ)) := rfl
  have hget1 : cexPositions.getD 1 ((0:ℝ), (0:ℝ)) = ((1/2:ℝ), (0:ℝ)) := rfl
  have hget2 : cexPositions.getD 2 ((0:ℝ), (0:ℝ)) = ((1/2:ℝ), (0:ℝ)) := rfl
  have hs0 : scan_step 1 1 cexPositions cexU 1 ([], 2) 0 = ([], 3) :=
    (scan_step_miss 1 1 cexPositions cexU 1 ([], 2) 0 (by decide)
      (by rw [hget0, hget1, cex_dist_10]; norm_num)
      (by
        rw [hget0, hget1, cex_dist_10, cex_prob_half]
        show ¬ cexU 2 < 1/2
        rw [show cexU 2 = 9/10 from rfl]
        norm_num)).trans rfl
  have hs2 : scan_step 1 1 cexPositions cexU 1 ([], 3) 2 = ([2], 4) :=
    (scan_step_hit 1 1 cexPositions cexU 1 ([], 3) 2 (by decide)
      (by rw [hget1, hget2, cex_dist_12]; norm_num)
      (by
        rw [hget1, hget2, cex_dist_12, cex_prob_zero_dist]
        show cexU 3 < 1
        rw [show cexU 3 = 0 from rfl]
        norm_num)).trans rfl
  have hfold : (List.range cexPositions.length).foldl
      (scan_step 1 1 cexPositions cexU 1) ([], 2) = ([2], 4) := by
    rw [hr]
    simp only [List.foldl_cons, List.foldl_nil]
    rw [hs0, scan_step_self 1 1 cexPositions cexU 1 ([], 3), hs2]
  simp only [find_geographical_neighbors, hfold]
  norm_num

/-- Neighbor search of node 2 from draw counter 4: node 0 is rejected on
draw 9/10, coincident node 1 is admitted on draw 9/10 (probability 1). -/
theorem cex_find_2_4 :
    find_geographical_neighbors 1 1 20 (fun l _ => l) cexPositions cexU 2 4 = ([1], 6) := by
  have hr : List.range cexPositions.length = [0, 1, 2] := by decide
  have hget0 : cexPositions.getD 0 ((0:ℝ), (0:ℝ)) = ((0:ℝ), (0:ℝ)) := rfl
  have hget1 : cexPositions.getD 1 ((0:ℝ), (0:ℝ)) = ((1/2:ℝ), (0:ℝ)) := rfl
  have hget2 : cexPositions.getD 2 ((0:ℝ), (0:ℝ)) = ((1/2:ℝ), (0:ℝ)) := rfl
  have hs0 : scan_step 1 1 cexPositions cexU 2 ([], 4) 0 = ([], 5) :=
    (scan_step_miss 1 1 cexPositions cexU 2 ([], 4) 0 (by decide)
      (by rw [hget0, hget2, cex_dist_10]; norm_num)
      (by
        rw [hget0, hget2, cex_dist_10, cex_prob_half]
        show ¬ cexU 4 < 1/2
        rw [show cexU 4 = 9/10 from rfl]
        norm_num)).trans rfl
  have hs1 : scan_step 1 1 cexPositions cexU 2 ([], 5) 1 = ([1], 6) :=
    (scan_step_hit 1 1 cexPositions cexU 2 ([], 5) 1 (by decide)
      (by rw [hget1, hget2, cex_dist_12]; norm_num)
      (by
        rw [hget1, hget2, cex_dist_12, cex_prob_zero_dist]
        show cexU 5 < 1
        rw [show cexU 5 = 9/10 from rfl]
        norm_num)).trans rfl
  have hfold : (List.range cexPositions.length).foldl
      (scan_step 1 1 cexPositions cexU 2) ([], 4) = ([1], 6) := by
    rw [hr]
    simp only [List.foldl_cons, List.foldl_nil]
    rw [hs0, hs1, scan_step_self 1 1 cexPositions cexU 2 ([1], 6)]
  simp only [find_geographical_neighbors, hfold]
  norm_num

/-- Neighbor search of node 1 from draw counter 0 (node 1 processed first):
node 0 is rejected on draw 9/10, coincident node 2 is admitted on draw
9/10 (probability 1). -/
theorem cex_find_1_0 :
    find_geographical_neighbors 1 1 20 (fun l _ => l) cexPositions cexU 1 0 = ([2], 2) := by
  have hr : List.range cexPositions.length = [0, 1, 2] := by decide
  have hget0 : cexPositions.getD 0 ((0:ℝ), (0:ℝ)) = ((0:ℝ), (0:ℝ)) := rfl
  have hget1 : cexPositions.getD 1 ((0:ℝ), (0:ℝ)) = ((1/2:ℝ), (0:ℝ)) := rfl
  have hget2 : cexPositions.getD 2 ((0:ℝ), (0:ℝ)) = ((1/2:ℝ), (0:ℝ)) := rfl
  have hs0 : scan_step 1 1 cexPositions cexU 1 ([], 0) 0 = ([], 1) :=
    (scan_step_miss 1 1 cexPositions cexU 1 ([], 0) 0 (by decide)
      (by rw [hget0, hget1, cex_dist_10]; norm_num)
      (by
        rw [hget0, hget1, cex_dist_10, cex_prob_half]
        show ¬ cexU 0 < 1/2
        rw [show cexU 0 = 9/10 from rfl]
        norm_num)).trans rfl
  have hs2 : scan_step 1 1 cexPositions cexU 1 ([], 1) 2 = ([2], 2) :=
    (scan_step_hit 1 1 cexPositions cexU 1 ([], 1) 2 (by decide)
      (by rw [hget1, hget2, cex_dist_12]; norm_num)
      (by
        rw [hget1, hget2, cex_dist_12, cex_prob_zero_dist]
        show cexU 1 < 1
        rw [show cexU 1 = 9/10 from rfl]
        norm_num)).trans rfl
  have hfold : (List.range cexPositions.length).foldl
      (scan_step 1 1 cexPositions cexU 1) ([], 0) = ([2], 2) := by
    rw [hr]
    simp only [List.foldl_cons, List.foldl_nil]
    rw [hs0, scan_step_self 1 1 cexPositions cexU 1 ([], 1), hs2]
  simp only [find_geographical_neighbors, hfold]
  norm_num

/-- Neighbor search of node 0 from draw counter 2 (node 0 processed second):
node 1 is rejected on draw 9/10, but node 2 is now admitted because the
zero draw of index 3 falls on it. -/
theorem cex_find_0_2 :
    find_geographical_neighbors 1 1 20 (fun l _ => l) cexPositions cexU 0 2 = ([2], 4) := by
  have hr : List.range cexPositions.length = [0, 1, 2] := by decide
  have hget0 : cexPositions.getD 0 ((0:ℝ), (0:ℝ)) = ((0:ℝ), (0:ℝ)) := rfl
  have hget1 : cexPositions.getD 1 ((0:ℝ), (0:ℝ)) = ((1/2:ℝ), (0:ℝ)) := rfl
  have hget2 : cexPositions.getD 2 ((0:ℝ), (0:ℝ)) = ((1/2:ℝ), (0:ℝ)) := rfl
  have hs1 : scan_step 1 1 cexPositions cexU 0 ([], 2) 1 = ([], 3) :=
    (scan_step_miss 1 1 cexPositions cexU 0 ([], 2) 1 (by decide)
      (by rw [hget0, hget1, cex_dist_01]; norm_num)
      (by
        rw [hget0, hget1, cex_dist_01, cex_prob_half]
        show ¬ cexU 2 < 1/2
        rw [show cexU 2 = 9/10 from rfl]
        norm_num)).trans rfl
  have hs2 : scan_step 1 1 cexPositions cexU 0 ([], 3) 2 = ([2], 4) :=
    (scan_step_hit 1 1 cexPositions cexU 0 ([], 3) 2 (by decide)
      (by rw [hget0, hget2, cex_dist_01]; norm_num)
      (by
        rw [hget0, hget2, cex_dist_01, cex_prob_half]
        show cexU 3 < 1/2
        rw [show cexU 3 = 0 from rfl]
        norm_num)).trans rfl
  have hfold : (List.range cexPositions.length).foldl
      (scan_step 1 1 cexPositions cexU 0) ([], 2) = ([2], 4) := by
    rw [hr]
    simp only [List.foldl_cons, List.foldl_nil]
    rw [scan_step_self 1 1 cexPositions cexU 0 ([], 2), hs1, hs2]
  simp only [find_geographical_neighbors, hfold]
  norm_num

/-- The inner ranges of the batch loop concatenate to an initial segment of
the node ids: after `q` batches of size `b`, exactly the first
`min n (q * b)` nodes have been listed. -/
theorem batch_chunks (b n : Nat) :
    ∀ q : Nat, ((List.range q).map fun t => List.range' (t * b) (min b (n - t * b))).flatten
      = List.range (min n (q * b)) := by
  intro q
  induction q with
  | zero => simp
  | succ q ih =>
    rw [List.range_succ, List.map_append, List.flatten_append, ih]
    simp only [List.map_cons, List.map_nil, List.flatten_cons, List.flatten_nil,
      List.append_nil]
    by_cases hqb : n ≤ q * b
    · have h1 : min n (q * b) = n := min_eq_left hqb
      have h2 : n - q * b = 0 := Nat.sub_eq_zero_of_le hqb
      have h3 : min n ((q + 1) * b) = n :=
        min_eq_left (le_trans hqb (Nat.mul_le_mul_right b (Nat.le_succ q)))
      rw [h1, h2, h3]
      simp
    · push_neg at hqb
      have h1 : min n (q * b) = q * b := min_eq_right (le_of_lt hqb)
      rw [h1, List.range_eq_range', List.range_eq_range']
      have happ := List.range'_append_1 0 (q * b) (min b (n - q * b))
      rw [Nat.zero_add] at happ
      rw [happ]
      congr 1
      rw [Nat.succ_mul]
      omega

/-- For any positive batch size the batch loop enumerates exactly
`0, 1, ..., n-1` in order. -/
theorem batch_order_eq_range (n b : Nat) (hb : 1 ≤ b) : batch_order n b = List.range n := by
  rw [batch_order, batch_chunks]
  congr 1
  rw [Nat.mul_comm]
  have hdm := Nat.div_add_mod (n + b - 1) b
  have hlt : (n + b - 1) % b < b := Nat.mod_lt _ (by omega)
  omega

/-- C9 amended, first half (this part of the claim holds): the graph built by
the optimized generator is invariant to the batch size, because the batch
boundaries flatten to the same node order and the same pseudo-random draw
sequence. -/
theorem C9_batch_invariance (md w : ℝ) (k : Nat) (sample : List Nat → Nat → List Nat)
    (positions : List (ℝ × ℝ)) (u : Nat → ℝ) (b1 b2 : Nat)
    (hb1 : 1 ≤ b1) (hb2 : 1 ≤ b2) :
    create_geographical_network_optimized md w k sample positions u b1
      = create_geographical_network_optimized md w k sample positions u b2 := by
  rw [create_geographical_network_optimized, create_geographical_network_optimized,
    batch_order_eq_range positions.length b1 hb1, batch_order_eq_range positions.length b2 hb2]

/-- Witness for the batch-invariance half of C9: batch sizes 1 and 1000 give
the same graph on the three-node layout. -/
theorem C9_witness :
    1 ≤ 1 ∧ 1 ≤ 1000 ∧
      create_geographical_network_optimized 1 1 20 (fun l _ => l) cexPositions cexU 1
        = create_geographical_network_optimized 1 1 20 (fun l _ => l) cexPositions cexU 1000 :=
  ⟨by decide, by decide,
    C9_batch_invariance 1 1 20 (fun l _ => l) cexPositions cexU 1 1000 (by decide) (by decide)⟩

/-- C9 fails as stated for the processing-order half: on the three-node
layout with the fixed stream, processing order `[1, 0, 2]` admits the edge
`{0, 2}` (the zero draw falls on that pair) while the code's ascending order
`[0, 1, 2]` does not (the zero draw falls on pair `{1, 2}` instead), so the
edge sets differ. -/
theorem C9_counterexample :
    2 ∈ (create_network_order 1 1 20 (fun l _ => l) cexPositions cexU [1, 0, 2]).1 0 ∧
    2 ∉ create_geographical_network_optimized 1 1 20 (fun l _ => l) cexPositions cexU 1 0 := by
  have hA : create_geographical_network_optimized 1 1 20 (fun l _ => l) cexPositions cexU 1
      = (create_network_order 1 1 20 (fun l _ => l) cexPositions cexU [0, 1, 2]).1 := by
    rw [create_geographical_network_optimized,
      show batch_order cexPositions.length 1 = [0, 1, 2] from by decide]
  have hAval : (create_network_order 1 1 20 (fun l _ => l) cexPositions cexU [0, 1, 2]).1
      = add_connections (add_connections (add_connections (fun _ => (∅ : Finset Nat)) 0 [])
          1 [2]) 2 [1] := by
    rw [create_network_order]
    simp only [List.foldl_cons, List.foldl_nil, node_pass_optimized,
      cex_find_0_0, cex_find_1_2, cex_find_2_4]
  have hBval : (create_network_order 1 1 20 (fun l _ => l) cexPositions cexU [1, 0, 2]).1
      = add_connections (add_connections (add_connections (fun _ => (∅ : Finset Nat)) 1 [2])
          0 [2]) 2 [1] := by
    rw [create_network_order]
    simp only [List.foldl_cons, List.foldl_nil, node_pass_optimized,
      cex_find_1_0, cex_find_0_2, cex_find_2_4]
  constructor
  · rw [hBval]
    decide
  · rw [hA, hAval]
    decide

end NetworkStudy
